import Mathlib

/-!
# certinfo: short-form certificate summaries (`certformat.go`)

A shallow embedding of `certformat.go` and the properties of its functions
`abbreviated`, `getSANs`, `getProvisioner`, `getPublicKeyAlgorithm`,
`newCertificateShort`, `newCertificateRequestShort` and the two `String`
methods.

Conventions of the embedding:

* a Go `string` is an immutable sequence of bytes, `len` and slice
  expressions count bytes, so a string is a `List UInt8`;
* a run-time panic is an `Except.error`, a normal return an `Except.ok`;
* a nilable pointer result (`*provisioner`) is an `Option`;
* what the file takes from the Go standard library and cannot be read off
  `certformat.go` (`net.IP.String`, `(*url.URL).String`, `time.Time.Format`,
  `(*x509.Certificate).CheckSignatureFrom`, `asn1.Unmarshal`) is a parameter.
-/

set_option autoImplicit false

namespace Certinfo

/-! ## Go strings -/

/-- A Go string: a sequence of bytes. -/
abbrev GoString := List UInt8

/-- UTF-8 encoding of one code point, the way the Go compiler stores the
characters of a string literal. -/
def utf8Encode (c : Char) : List UInt8 :=
  let n := c.toNat
  if n < 0x80 then [UInt8.ofNat n]
  else if n < 0x800 then [UInt8.ofNat (0xC0 + n / 64), UInt8.ofNat (0x80 + n % 64)]
  else if n < 0x10000 then
    [UInt8.ofNat (0xE0 + n / 4096), UInt8.ofNat (0x80 + n / 64 % 64), UInt8.ofNat (0x80 + n % 64)]
  else
    [UInt8.ofNat (0xF0 + n / 262144), UInt8.ofNat (0x80 + n / 4096 % 64),
     UInt8.ofNat (0x80 + n / 64 % 64), UInt8.ofNat (0x80 + n % 64)]

/-- The bytes of a string literal of the source. -/
def lit (s : String) : GoString := s.toList.flatMap utf8Encode

/-- Run-time panics the embedded code could raise. -/
inductive RuntimeError where
  /-- Slice bounds out of range. -/
  | sliceBounds
deriving DecidableEq, Repr

/-- A Go computation: `ok v` is a normal return of `v`, `error e` a panic. -/
abbrev Go (α : Type) := Except RuntimeError α

deriving instance DecidableEq for Except

/-- The slice expression `s[lo:hi]` on a string: it panics unless
`0 ≤ lo ≤ hi ≤ len(s)`, and otherwise yields the bytes `lo, .., hi-1`. -/
def sliceStr (s : GoString) (lo hi : Int) : Go GoString :=
  if 0 ≤ lo ∧ lo ≤ hi ∧ hi ≤ (s.length : Int) then
    .ok ((s.drop lo.toNat).take (hi - lo).toNat)
  else
    .error .sliceBounds

/-- Decimal rendering of an integer: `strconv.Itoa` and `(*big.Int).String`. -/
def Itoa (n : Int) : GoString := lit (toString n)

/-! ## `fmt.Sprintf` and `formatBuffer` -/

/-- The part of `fmt.Sprintf` the file uses: the format is copied byte by byte
and each verb `%s` (bytes 37, 115) is replaced by the next operand, itself a
string and never scanned again. A `%s` without an operand prints
`%!s(MISSING)`. Every format of `certformat.go` has `%s` as its only verb and as
many operands as verbs; other verbs and surplus operands are not modelled. -/
def Sprintf : GoString → List GoString → GoString
  | [], _ => []
  | [b], _ => [b]
  | b :: v :: format, args =>
    if b = 37 ∧ v = 115 then
      match args with
      | a :: rest => a ++ Sprintf format rest
      | [] => lit "%!s(MISSING)" ++ Sprintf format []
    else
      b :: Sprintf (v :: format) args

/-- The helper type `formatBuffer`: a `bytes.Buffer`, here its contents. -/
structure formatBuffer where
  Buffer : GoString
deriving DecidableEq, Repr

/-- `Writef` appends `fmt.Sprintf(format, args...)` to the buffer. -/
def formatBuffer.Writef (b : formatBuffer) (format : GoString) (args : List GoString) :
    formatBuffer :=
  ⟨b.Buffer ++ Sprintf format args⟩

/-- `buf.String()`: the contents of the buffer. -/
def formatBuffer.String (b : formatBuffer) : GoString := b.Buffer

/-! ## `abbreviated` -/

/-- Function `abbreviated` of the source:
```go
l := len(s)
if l <= 8 { return s }
return s[:4] + "..." + s[l-4:]
``` -/
def abbreviated (s : GoString) : Go GoString :=
  let l : Int := s.length
  if l ≤ 8 then
    pure s
  else do
    let head ← sliceStr s 0 4
    let tail ← sliceStr s (l - 4) s.length
    pure (head ++ lit "..." ++ tail)

/-! ## `getSANs` -/

section SANs

variable {IP URL : Type}

/-- Function `getSANs` of the source: four `for ... range` loops, each appending
to `sans` the entries that differ from `commonName`. `ipString` is
`net.IP.String` and `uriString` is `(*url.URL).String` (on a non-nil URL, as
every URI of a parsed certificate is). -/
def getSANs (ipString : IP → GoString) (uriString : URL → GoString)
    (commonName : GoString) (dnsNames : List GoString) (ipAddresses : List IP)
    (emailAddresses : List GoString) (uris : List URL) : List GoString :=
  let sans : List GoString := []
  let sans := dnsNames.foldl (fun sans s => if s ≠ commonName then sans ++ [s] else sans) sans
  let sans := ipAddresses.foldl
    (fun sans ip => let s := ipString ip; if s ≠ commonName then sans ++ [s] else sans) sans
  let sans := emailAddresses.foldl
    (fun sans s => if s ≠ commonName then sans ++ [s] else sans) sans
  let sans := uris.foldl
    (fun sans uri => let s := uriString uri; if s ≠ commonName then sans ++ [s] else sans) sans
  sans

end SANs

/-! ## `getPublicKeyAlgorithm` -/

/-- Go `x509.PublicKeyAlgorithm`, an `int`: 0 unknown, 1 RSA, 2 DSA, 3 ECDSA,
4 Ed25519. -/
abbrev PublicKeyAlgorithm := Int

/-- Table `publicKeyAlgoName` of `crypto/x509`, indexed by the algorithm. -/
def publicKeyAlgoName : List GoString :=
  [lit "", lit "RSA", lit "DSA", lit "ECDSA", lit "Ed25519"]

/-- Method `String` of `x509.PublicKeyAlgorithm`: the name from the table for
an algorithm in `1 .. len-1`, the decimal number otherwise. -/
def PublicKeyAlgorithm.String (algo : PublicKeyAlgorithm) : GoString :=
  if 0 < algo ∧ algo < (publicKeyAlgoName.length : Int) then
    publicKeyAlgoName.getD algo.toNat []
  else
    Itoa algo

/-- Bits of `n` with `fuel` halvings allowed. -/
def bitLenAux : Nat → Nat → Nat
  | 0, _ => 0
  | fuel + 1, n => if n = 0 then 0 else bitLenAux fuel (n / 2) + 1

/-- Method `BitLen` of `*big.Int` on the absolute value `n`: the number of bits
of `n`, and 0 for 0. -/
def bitLen (n : Nat) : Nat := bitLenAux n n

/-- The dynamic type of the `key interface{}` argument with what the type
switch reads from it. The pointers inside a key (`Curve`, `N`, `Q`) are
non-nil, as in every key of a parsed certificate. -/
inductive PublicKey where
  /-- `*ecdsa.PublicKey`, with `pk.Curve.Params().Name`. -/
  | ecdsa (curveName : GoString)
  /-- `*rsa.PublicKey`, with the modulus `pk.N`. -/
  | rsa (N : Int)
  /-- `*dsa.PublicKey`, with the parameter `pk.Q`. -/
  | dsa (Q : Int)
  /-- `ed25519.PublicKey`, a byte slice. -/
  | ed25519 (pk : List UInt8)
  /-- Any other dynamic type, `nil` included. -/
  | other
deriving DecidableEq, Repr

/-- Method `Size` of `*rsa.PublicKey`: the modulus size in bytes,
`(N.BitLen() + 7) / 8`. -/
def rsaSize (N : Int) : Int := ((bitLen N.natAbs : Int) + 7) / 8

/-- Function `getPublicKeyAlgorithm` of the source: a type switch on the key
chooses `params`, and the result is `fmt.Sprintf("%s %s", algorithm, params)`,
where `%s` prints the algorithm through its `String` method. -/
def getPublicKeyAlgorithm (algorithm : PublicKeyAlgorithm) (key : PublicKey) : GoString :=
  let params : GoString :=
    match key with
    | .ecdsa curveName => curveName
    | .rsa N => Itoa (rsaSize N * 8)
    | .dsa Q => Itoa (bitLen Q.natAbs)
    | .ed25519 pk => Itoa ((pk.length : Int) * 8)
    | .other => lit "unknown"
  Sprintf (lit "%s %s") [PublicKeyAlgorithm.String algorithm, params]

/-! ## Certificates and `getProvisioner` -/

/-- Go `asn1.ObjectIdentifier`, a slice of `int`. -/
abbrev ObjectIdentifier := List Int

/-- Method `Equal` of `asn1.ObjectIdentifier`: same length and same arcs. -/
def ObjectIdentifier.Equal (oi other : ObjectIdentifier) : Bool :=
  decide (oi = other)

/-- Go `pkix.Extension`. -/
structure Extension where
  Id : ObjectIdentifier
  Critical : Bool
  Value : List UInt8
deriving DecidableEq, Repr

/-- Modelled from the spec: the type `stepProvisioner` is declared outside
`certformat.go`; the specification describes the decoded value as a sequence of
opaque identifier bytes and a text name, and `getProvisioner` reads the two
fields `CredentialID` and `Name`, each converted with `string(...)`. -/
structure stepProvisioner where
  CredentialID : List UInt8
  Name : List UInt8
deriving DecidableEq, Repr

/-- What `rest, err := asn1.Unmarshal(ext.Value, val)` leaves behind: the
contents of `*val`, the bytes not consumed, and the error (`none` is `nil`). -/
structure UnmarshalResult where
  val : stepProvisioner
  rest : List UInt8
  err : Option GoString
deriving DecidableEq, Repr

/-- The fields of `x509.Certificate` the file reads; `Subject` and `Issuer` are
the `CommonName` of the two `pkix.Name` values. -/
structure Certificate (IP URL Time : Type) where
  IsCA : Bool
  PublicKeyAlgorithm : PublicKeyAlgorithm
  PublicKey : PublicKey
  SerialNumber : Int
  SubjectCommonName : GoString
  IssuerCommonName : GoString
  DNSNames : List GoString
  IPAddresses : List IP
  EmailAddresses : List GoString
  URIs : List URL
  Extensions : List Extension
  NotBefore : Time
  NotAfter : Time
  RawTBSCertificate : List UInt8
  Signature : List UInt8

/-- The fields of `x509.CertificateRequest` the file reads. -/
structure CertificateRequest (IP URL : Type) where
  PublicKeyAlgorithm : PublicKeyAlgorithm
  PublicKey : PublicKey
  SubjectCommonName : GoString
  DNSNames : List GoString
  IPAddresses : List IP
  EmailAddresses : List GoString
  URIs : List URL

/-- What `certformat.go` uses and does not define: standard-library methods,
and the variable `oidStepProvisioner` and the decoding into a `stepProvisioner`,
both declared elsewhere in the package. -/
structure Lib (IP URL Time : Type) where
  /-- `net.IP.String`. -/
  ipString : IP → GoString
  /-- `(*url.URL).String`. -/
  uriString : URL → GoString
  /-- `t.Format(layout)` of `time.Time`. -/
  Format : Time → GoString → GoString
  /-- `c.CheckSignatureFrom(parent)`; `none` is the `nil` error. -/
  CheckSignatureFrom : Certificate IP URL Time → Certificate IP URL Time → Option GoString
  /-- The package variable `oidStepProvisioner`. -/
  oidStepProvisioner : ObjectIdentifier
  /-- `asn1.Unmarshal(b, val)` with `val` a fresh `*stepProvisioner`. -/
  Unmarshal : List UInt8 → UnmarshalResult

/-- The layout constant `time.RFC3339`. -/
def RFC3339 : GoString := lit "2006-01-02T15:04:05Z07:00"

/-- Type `provisioner` of the source. -/
structure provisioner where
  ID : GoString
  Name : GoString
deriving DecidableEq, Repr

/-- Type `certificateShort` of the source; `Provisioner` is a pointer and
`none` is `nil`. -/
structure certificateShort (Time : Type) where
  «Type» : GoString
  PublicKeyAlgorithm : GoString
  SerialNumber : GoString
  Subject : GoString
  Issuer : GoString
  SANs : List GoString
  Provisioner : Option provisioner
  NotBefore : Time
  NotAfter : Time

/-- Type `certificateRequestShort` of the source. -/
structure certificateRequestShort where
  PublicKeyAlgorithm : GoString
  Subject : GoString
  SANs : List GoString
deriving DecidableEq, Repr

/-- The loop of `getProvisioner` over the extensions that are still to be
visited: the first extension whose `Id` equals `oid` ends it, with `nil` when
decoding reports an error or leaves bytes, and with the provisioner otherwise;
`nil` when the extensions run out. -/
def getProvisionerLoop (oid : ObjectIdentifier) (unmarshal : List UInt8 → UnmarshalResult) :
    List Extension → Go (Option provisioner)
  | [] => pure none
  | ext :: exts =>
    if ext.Id.Equal oid then
      let r := unmarshal ext.Value
      if r.err ≠ none ∨ r.rest.length > 0 then
        pure none
      else do
        let id ← abbreviated r.val.CredentialID
        pure (some { ID := id, Name := r.val.Name })
    else
      getProvisionerLoop oid unmarshal exts

section Certificates

variable {IP URL Time : Type}

/-- Function `getProvisioner` of the source: `for _, ext := range
cert.Extensions`, returning from inside the loop at the first match. -/
def getProvisioner (L : Lib IP URL Time) (cert : Certificate IP URL Time) :
    Go (Option provisioner) :=
  getProvisionerLoop L.oidStepProvisioner L.Unmarshal cert.Extensions

/-- Function `newCertificateShort` of the source. The fields of the composite
literal are evaluated in the order they are written. -/
def newCertificateShort (L : Lib IP URL Time) (cert : Certificate IP URL Time) :
    Go (certificateShort Time) :=
  let typ : GoString :=
    if cert.IsCA then
      if L.CheckSignatureFrom cert cert = none then lit "Root CA" else lit "Intermediate CA"
    else
      lit "TLS"
  do
    let publicKeyAlgorithm := getPublicKeyAlgorithm cert.PublicKeyAlgorithm cert.PublicKey
    let serialNumber ← abbreviated (Itoa cert.SerialNumber)
    let sans := getSANs L.ipString L.uriString cert.SubjectCommonName cert.DNSNames
      cert.IPAddresses cert.EmailAddresses cert.URIs
    let prov ← getProvisioner L cert
    pure {
      «Type» := typ
      PublicKeyAlgorithm := publicKeyAlgorithm
      SerialNumber := serialNumber
      Subject := cert.SubjectCommonName
      Issuer := cert.IssuerCommonName
      SANs := sans
      Provisioner := prov
      NotBefore := cert.NotBefore
      NotAfter := cert.NotAfter }

/-- Method `String` of `*certificateShort`. -/
def certificateShort.String (L : Lib IP URL Time) (c : certificateShort Time) : GoString :=
  let buf : formatBuffer := ⟨[]⟩
  let buf := buf.Writef (lit "X.509v3 %s Certificate (%s) [Serial: %s]\n")
    [c.«Type», c.PublicKeyAlgorithm, c.SerialNumber]
  let sans := c.SANs
  let sans := if c.Subject ≠ lit "" then [c.Subject] ++ sans else sans
  let buf :=
    if sans.length = 0 then
      buf.Writef (lit "  Subject: \n") []
    else
      sans.enum.foldl (fun buf is =>
        if is.1 = 0 then buf.Writef (lit "  Subject:     %s\n") [is.2]
        else buf.Writef (lit "               %s\n") [is.2]) buf
  let buf := buf.Writef (lit "  Issuer:      %s\n") [c.Issuer]
  let buf :=
    match c.Provisioner with
    | some p =>
      if p.ID = lit "" then buf.Writef (lit "  Provisioner: %s\n") [p.Name]
      else buf.Writef (lit "  Provisioner: %s [ID: %s]\n") [p.Name, p.ID]
    | none => buf
  let buf := buf.Writef (lit "  Valid from:  %s\n") [L.Format c.NotBefore RFC3339]
  let buf := buf.Writef (lit "          to:  %s\n") [L.Format c.NotAfter RFC3339]
  buf.String

/-- Function `newCertificateRequestShort` of the source. -/
def newCertificateRequestShort (L : Lib IP URL Time) (cr : CertificateRequest IP URL) :
    certificateRequestShort :=
  { PublicKeyAlgorithm := getPublicKeyAlgorithm cr.PublicKeyAlgorithm cr.PublicKey
    Subject := cr.SubjectCommonName
    SANs := getSANs L.ipString L.uriString cr.SubjectCommonName cr.DNSNames
      cr.IPAddresses cr.EmailAddresses cr.URIs }

end Certificates

/-- Method `String` of `*certificateRequestShort`. -/
def certificateRequestShort.String (c : certificateRequestShort) : GoString :=
  let buf : formatBuffer := ⟨[]⟩
  let buf := buf.Writef (lit "X.509v3 Certificate Signing Request (%s)\n") [c.PublicKeyAlgorithm]
  let sans := c.SANs
  let sans := if c.Subject ≠ lit "" then [c.Subject] ++ sans else sans
  let buf :=
    if sans.length = 0 then
      buf.Writef (lit "  Subject: \n") []
    else
      sans.enum.foldl (fun buf is =>
        if is.1 = 0 then buf.Writef (lit "  Subject:     %s\n") [is.2]
        else buf.Writef (lit "               %s\n") [is.2]) buf
  buf.String

/-! ## The layout as the specification words it -/

/-- The list the subject block renders, in the words of the specification:
`[Subject] + SANs` when `Subject` is non-empty, else just `SANs`. -/
def subjectList (subject : GoString) (sans : List GoString) : List GoString :=
  if subject = [] then sans else subject :: sans

/-- The subject block in the words of the specification: a bare
`"  Subject: "` line when the list is empty; otherwise the first entry after the
label `"  Subject:     "` and every later entry after 15 spaces, one entry a
line, each line ended by a newline. -/
def subjectBlockSpec (subject : GoString) (sans : List GoString) : GoString :=
  match subjectList subject sans with
  | [] => lit "  Subject: " ++ lit "\n"
  | first :: later =>
    lit "  Subject:     " ++ first ++ lit "\n" ++
      later.flatMap (fun entry => List.replicate 15 32 ++ entry ++ lit "\n")

/-! ## Concrete collaborators, for evaluating the functions -/

/-- A stand-in for `asn1.Unmarshal` into a `stepProvisioner`, over a toy
encoding: a length byte and that many bytes of credential ID, a length byte and
that many bytes of name; what follows is returned as `rest`, and an input that
ends early is an error. -/
def sampleUnmarshal (b : List UInt8) : UnmarshalResult :=
  match b with
  | [] => ⟨⟨[], []⟩, [], some (lit "asn1: syntax error: sequence truncated")⟩
  | n :: body =>
    if body.length < n.toNat then
      ⟨⟨[], []⟩, [], some (lit "asn1: syntax error: data truncated")⟩
    else
      match body.drop n.toNat with
      | [] => ⟨⟨body.take n.toNat, []⟩, [], some (lit "asn1: syntax error: sequence truncated")⟩
      | m :: body₂ =>
        if body₂.length < m.toNat then
          ⟨⟨body.take n.toNat, []⟩, [], some (lit "asn1: syntax error: data truncated")⟩
        else
          ⟨⟨body.take n.toNat, body₂.take m.toNat⟩, body₂.drop m.toNat, none⟩

/-- A concrete library: IPs, URIs and times are carried as their text, a
certificate verifies against a parent when its signature is the parent's
to-be-signed bytes, and the provisioner OID is `1.3.6.1.4.1.37476.9000.64.1`. -/
def sampleLib : Lib GoString GoString GoString where
  ipString := fun ip => ip
  uriString := fun uri => uri
  Format := fun t _ => t
  CheckSignatureFrom := fun c parent =>
    if c.Signature = parent.RawTBSCertificate then none
    else some (lit "x509: invalid signature")
  oidStepProvisioner := [1, 3, 6, 1, 4, 1, 37476, 9000, 64, 1]
  Unmarshal := sampleUnmarshal

/-- A leaf certificate without extensions, the base of the concrete inputs. -/
def sampleCert : Certificate GoString GoString GoString where
  IsCA := false
  PublicKeyAlgorithm := 4
  PublicKey := .ed25519 (List.replicate 32 7)
  SerialNumber := 123456789012
  SubjectCommonName := lit "leaf.example"
  IssuerCommonName := lit "Example Root"
  DNSNames := [lit "leaf.example", lit "www.leaf.example"]
  IPAddresses := [lit "10.0.0.1"]
  EmailAddresses := []
  URIs := []
  Extensions := []
  NotBefore := lit "2024-01-01T00:00:00Z"
  NotAfter := lit "2025-01-01T00:00:00Z"
  RawTBSCertificate := [1, 2, 3]
  Signature := [9, 9, 9]

/-- An extension with the provisioner OID of `sampleLib` and the given value. -/
def provisionerExt (value : List UInt8) : Extension :=
  { Id := [1, 3, 6, 1, 4, 1, 37476, 9000, 64, 1], Critical := false, Value := value }

/-- An extension with another OID (subject key identifier, `2.5.29.14`). -/
def otherExt : Extension :=
  { Id := [2, 5, 29, 14], Critical := false, Value := [4, 2, 1, 2] }

/-- The certificate `sampleCert` with the given extensions. -/
def certWithExtensions (exts : List Extension) : Certificate GoString GoString GoString :=
  { sampleCert with Extensions := exts }

/-- A CA certificate whose signature verifies against itself under
`sampleLib`. -/
def sampleRootCert : Certificate GoString GoString GoString :=
  { sampleCert with
    IsCA := true
    SubjectCommonName := lit "Example Root"
    DNSNames := []
    IPAddresses := []
    Signature := [1, 2, 3] }

/-- A certificate summary with a subject, two SANs and a provisioner. -/
def sampleSummary : certificateShort GoString where
  «Type» := lit "TLS"
  PublicKeyAlgorithm := lit "ECDSA P-256"
  SerialNumber := lit "1234...9012"
  Subject := lit "leaf.example"
  Issuer := lit "Example Root"
  SANs := [lit "www.leaf.example", lit "10.0.0.1"]
  Provisioner := some { ID := lit "0123...89ab", Name := lit "jo" }
  NotBefore := lit "2024-01-01T00:00:00Z"
  NotAfter := lit "2025-01-01T00:00:00Z"

/-- A request summary with the subject and SANs of `sampleSummary`. -/
def sampleRequestSummary : certificateRequestShort where
  PublicKeyAlgorithm := lit "Ed25519 256"
  Subject := lit "leaf.example"
  SANs := [lit "www.leaf.example", lit "10.0.0.1"]

/-- A modulus of 2048 bits. -/
def sampleRSAModulus : Nat := 2 ^ 2047 + 1

/-- A self-signed CA certificate with an RSA key of 2048 bits, its subject
repeated among the DNS names, and no provisioner extension. -/
def sampleRSARootCert : Certificate GoString GoString GoString :=
  { sampleRootCert with
    PublicKeyAlgorithm := 1
    PublicKey := .rsa (sampleRSAModulus : Int)
    DNSNames := [lit "Example Root"]
    Extensions := [otherExt] }

/-- A request with an Ed25519 key, no subject common name and one DNS name. -/
def sampleRequest : CertificateRequest GoString GoString where
  PublicKeyAlgorithm := 4
  PublicKey := .ed25519 (List.replicate 32 7)
  SubjectCommonName := lit ""
  DNSNames := [lit "host.example"]
  IPAddresses := []
  EmailAddresses := []
  URIs := []

/-- A request whose subject common name is also a DNS name, an email address
and a URI. -/
def sampleRequestWithSubject : CertificateRequest GoString GoString where
  PublicKeyAlgorithm := 4
  PublicKey := .ed25519 (List.replicate 32 7)
  SubjectCommonName := lit "leaf.example"
  DNSNames := [lit "leaf.example", lit "www.leaf.example"]
  IPAddresses := [lit "10.0.0.1"]
  EmailAddresses := [lit "leaf.example"]
  URIs := [lit "leaf.example"]

/-! ## Shared lemmas -/

/-- A slice expression whose bounds are in range returns the bytes between
them. -/
theorem sliceStr_of_bounds (s : GoString) (lo hi : Nat) (h₁ : lo ≤ hi) (h₂ : hi ≤ s.length) :
    sliceStr s lo hi = .ok ((s.drop lo).take (hi - lo)) := by
  have hc : (0 : Int) ≤ lo ∧ (lo : Int) ≤ hi ∧ (hi : Int) ≤ (s.length : Int) := by omega
  have hsub : ((hi : Int) - (lo : Int)).toNat = hi - lo := by omega
  simp [sliceStr, hc, hsub]

/-- The value of `abbreviated`: it always returns, the argument itself up to 8
bytes and the first 4 bytes, three dots and the last 4 bytes beyond. -/
theorem abbreviated_eq (s : GoString) :
    abbreviated s =
      .ok (if s.length ≤ 8 then s else s.take 4 ++ lit "..." ++ s.drop (s.length - 4)) := by
  unfold abbreviated
  by_cases h : s.length ≤ 8
  · have h' : (s.length : Int) ≤ 8 := by omega
    simp [h, h', pure, Except.pure]
  · have h' : ¬ (s.length : Int) ≤ 8 := by omega
    have e₁ := sliceStr_of_bounds s 0 4 (by omega) (by omega)
    have e₂ := sliceStr_of_bounds s (s.length - 4) s.length (by omega) (by omega)
    have hc : ((s.length - 4 : Nat) : Int) = (s.length : Int) - 4 := by omega
    rw [hc] at e₂
    have e₀ : sliceStr s 0 4 = .ok (s.take 4) := by simpa using e₁
    have hlen : s.length - (s.length - 4) = 4 := by omega
    have e₃ : sliceStr s ((s.length : Int) - 4) s.length = .ok (s.drop (s.length - 4)) := by
      rw [e₂, hlen]
      congr 1
      apply List.take_of_length_le
      simp
      omega
    simp only [h, h', if_false]
    rw [e₀, e₃]
    rfl

/-- One `for ... range` loop of `getSANs`: it appends to `sans`, in order, the
rendered entries that differ from the common name. -/
theorem sansLoop_eq {α : Type} (f : α → GoString) (cn : GoString) (xs : List α)
    (sans : List GoString) :
    xs.foldl (fun sans x => if f x ≠ cn then sans ++ [f x] else sans) sans =
      sans ++ (xs.map f).filter (fun s => decide (s ≠ cn)) := by
  induction xs generalizing sans with
  | nil => simp
  | cons x xs ih =>
    simp only [List.foldl_cons, List.map_cons]
    rw [ih]
    by_cases h : f x = cn
    · simp [h]
    · simp [h, List.filter_cons]

/-- The value of `getSANs`: the four filtered categories, one after the other. -/
theorem getSANs_eq {IP URL : Type} (ipString : IP → GoString) (uriString : URL → GoString)
    (cn : GoString) (dns : List GoString) (ips : List IP) (emails : List GoString)
    (uris : List URL) :
    getSANs ipString uriString cn dns ips emails uris =
      dns.filter (fun s => decide (s ≠ cn)) ++
      (ips.map ipString).filter (fun s => decide (s ≠ cn)) ++
      emails.filter (fun s => decide (s ≠ cn)) ++
      (uris.map uriString).filter (fun s => decide (s ≠ cn)) := by
  have h₁ := sansLoop_eq (fun s : GoString => s) cn
  have h₂ := sansLoop_eq ipString cn
  have h₃ := sansLoop_eq uriString cn
  simp only [List.map_id_fun', id] at h₁
  unfold getSANs
  simp only [h₁, h₂, h₃, List.nil_append]

/-- The loop of `getProvisioner` passes over extensions with another OID. -/
theorem getProvisionerLoop_skip (oid : ObjectIdentifier) (um : List UInt8 → UnmarshalResult)
    (pre exts : List Extension) (h : ∀ x ∈ pre, x.Id ≠ oid) :
    getProvisionerLoop oid um (pre ++ exts) = getProvisionerLoop oid um exts := by
  induction pre with
  | nil => rfl
  | cons x pre ih =>
    have hx : x.Id ≠ oid := h x (List.mem_cons_self x pre)
    have ih' := ih (fun y hy => h y (List.mem_cons_of_mem x hy))
    simp [getProvisionerLoop, ObjectIdentifier.Equal, hx, ih']

/-- The loop of `getProvisioner` at an extension with the provisioner OID: the
result is settled there, whatever follows. -/
theorem getProvisionerLoop_hit (oid : ObjectIdentifier) (um : List UInt8 → UnmarshalResult)
    (e : Extension) (post : List Extension) (h : e.Id = oid) :
    getProvisionerLoop oid um (e :: post) =
      if (um e.Value).err ≠ none ∨ (um e.Value).rest.length > 0 then .ok none
      else .ok (some
        { ID := if (um e.Value).val.CredentialID.length ≤ 8 then (um e.Value).val.CredentialID
                else (um e.Value).val.CredentialID.take 4 ++ lit "..." ++
                  (um e.Value).val.CredentialID.drop ((um e.Value).val.CredentialID.length - 4)
          Name := (um e.Value).val.Name }) := by
  simp only [getProvisionerLoop, ObjectIdentifier.Equal, h, decide_True, if_true]
  split
  · rfl
  · rw [abbreviated_eq]
    rfl

/-- The loop of `getProvisioner` always returns. -/
theorem getProvisionerLoop_returns (oid : ObjectIdentifier) (um : List UInt8 → UnmarshalResult)
    (exts : List Extension) : ∃ p, getProvisionerLoop oid um exts = .ok p := by
  induction exts with
  | nil => exact ⟨none, rfl⟩
  | cons e exts ih =>
    by_cases h : e.Id = oid
    · rw [getProvisionerLoop_hit oid um e exts h]
      split
      · exact ⟨_, rfl⟩
      · exact ⟨_, rfl⟩
    · have hs := getProvisionerLoop_skip oid um [e] exts (by simpa using h)
      rw [List.singleton_append] at hs
      rw [hs]
      exact ih

/-- The loop over the entries of the subject block after the first: each is
written after 15 spaces and ended by a newline. -/
theorem subjectLoop_later (later : List GoString) (n : Nat) (buf : formatBuffer) :
    (later.enumFrom (n + 1)).foldl (fun buf is =>
        if is.1 = 0 then buf.Writef (lit "  Subject:     %s\n") [is.2]
        else buf.Writef (lit "               %s\n") [is.2]) buf =
      ⟨buf.Buffer ++ later.flatMap (fun entry => List.replicate 15 32 ++ entry ++ lit "\n")⟩ := by
  induction later generalizing n buf with
  | nil => simp
  | cons e later ih =>
    simp only [List.enumFrom_cons, List.foldl_cons, Nat.succ_ne_zero, if_false, ih,
      List.flatMap_cons]
    simp [formatBuffer.Writef, Sprintf, lit, utf8Encode]

/-- The subject block both `String` methods write: the code appends to the
buffer the block the specification describes. -/
theorem subjectBlock_written (subject : GoString) (sans : List GoString) (buf : formatBuffer) :
    (if (if subject ≠ lit "" then [subject] ++ sans else sans).length = 0 then
        buf.Writef (lit "  Subject: \n") []
      else
        (if subject ≠ lit "" then [subject] ++ sans else sans).enum.foldl (fun buf is =>
          if is.1 = 0 then buf.Writef (lit "  Subject:     %s\n") [is.2]
          else buf.Writef (lit "               %s\n") [is.2]) buf) =
      ⟨buf.Buffer ++ subjectBlockSpec subject sans⟩ := by
  have hl : (if subject ≠ lit "" then [subject] ++ sans else sans) = subjectList subject sans := by
    unfold subjectList
    by_cases h : subject = []
    · simp [h, lit]
    · simp [h, lit]
  rw [hl]
  unfold subjectBlockSpec
  cases subjectList subject sans with
  | nil => simp [formatBuffer.Writef, Sprintf, lit, utf8Encode]
  | cons first later =>
    simp only [List.length_cons, Nat.succ_ne_zero, if_false, List.enum, List.enumFrom_cons,
      List.foldl_cons, if_true, Nat.zero_add]
    have := subjectLoop_later later 0 (buf.Writef (lit "  Subject:     %s\n") [first])
    simp only [Nat.zero_add] at this
    rw [this]
    simp [formatBuffer.Writef, Sprintf, lit, utf8Encode]

/-- The text of `certificateShort.String`, line by line. -/
theorem certificateShort_String_eq {IP URL Time : Type} (L : Lib IP URL Time)
    (c : certificateShort Time) :
    c.String L =
      lit "X.509v3 " ++ c.«Type» ++ lit " Certificate (" ++ c.PublicKeyAlgorithm ++
        lit ") [Serial: " ++ c.SerialNumber ++ lit "]\n" ++
      subjectBlockSpec c.Subject c.SANs ++
      (lit "  Issuer:      " ++ c.Issuer ++ lit "\n") ++
      (match c.Provisioner with
        | none => []
        | some p =>
          if p.ID = [] then lit "  Provisioner: " ++ p.Name ++ lit "\n"
          else lit "  Provisioner: " ++ p.Name ++ lit " [ID: " ++ p.ID ++ lit "]\n") ++
      (lit "  Valid from:  " ++ L.Format c.NotBefore RFC3339 ++ lit "\n") ++
      (lit "          to:  " ++ L.Format c.NotAfter RFC3339 ++ lit "\n") := by
  simp only [certificateShort.String, subjectBlock_written]
  cases c.Provisioner with
  | none => simp [formatBuffer.Writef, formatBuffer.String, Sprintf, lit, utf8Encode]
  | some p =>
    by_cases h : p.ID = []
    · simp [formatBuffer.Writef, formatBuffer.String, Sprintf, lit, utf8Encode, h]
    · simp [formatBuffer.Writef, formatBuffer.String, Sprintf, lit, utf8Encode, h]

/-- The text of `certificateRequestShort.String`: the header line and the
subject block. -/
theorem certificateRequestShort_String_eq (r : certificateRequestShort) :
    r.String =
      lit "X.509v3 Certificate Signing Request (" ++ r.PublicKeyAlgorithm ++ lit ")\n" ++
      subjectBlockSpec r.Subject r.SANs := by
  simp only [certificateRequestShort.String, subjectBlock_written]
  simp [formatBuffer.Writef, formatBuffer.String, Sprintf, lit, utf8Encode]

/-- The summary `newCertificateShort` builds: it always returns, and each field
is the value the composite literal names. -/
theorem newCertificateShort_returns {IP URL Time : Type} (L : Lib IP URL Time)
    (cert : Certificate IP URL Time) :
    ∃ serial prov,
      abbreviated (Itoa cert.SerialNumber) = .ok serial ∧
      getProvisioner L cert = .ok prov ∧
      newCertificateShort L cert = .ok
        { «Type» :=
            if cert.IsCA then
              if L.CheckSignatureFrom cert cert = none then lit "Root CA"
              else lit "Intermediate CA"
            else lit "TLS"
          PublicKeyAlgorithm := getPublicKeyAlgorithm cert.PublicKeyAlgorithm cert.PublicKey
          SerialNumber := serial
          Subject := cert.SubjectCommonName
          Issuer := cert.IssuerCommonName
          SANs := getSANs L.ipString L.uriString cert.SubjectCommonName cert.DNSNames
            cert.IPAddresses cert.EmailAddresses cert.URIs
          Provisioner := prov
          NotBefore := cert.NotBefore
          NotAfter := cert.NotAfter } := by
  obtain ⟨prov, hp⟩ := getProvisionerLoop_returns L.oidStepProvisioner L.Unmarshal cert.Extensions
  have hp' : getProvisioner L cert = .ok prov := hp
  refine ⟨_, prov, abbreviated_eq _, hp', ?_⟩
  unfold newCertificateShort
  rw [abbreviated_eq, hp']
  rfl

/-! ## `abbreviated` and `getSANs`: claims C1, C3, C4 -/

/-- C1: for every string `s`, `abbreviated(s)` returns `s` when `len(s) <= 8`
and `s[0:4] + "..." + s[len(s)-4:]` (the first four bytes, three dots, the last
four bytes) when `len(s) > 8`; `"1234567890ABCDEF"` becomes `"1234...CDEF"`. -/
theorem abbreviated_short_or_elided (s : GoString) :
    abbreviated s =
        .ok (if s.length ≤ 8 then s else s.take 4 ++ lit "..." ++ s.drop (s.length - 4)) ∧
      abbreviated (lit "1234567890ABCDEF") = .ok (lit "1234...CDEF") :=
  ⟨abbreviated_eq s, by decide⟩

/-- C3: for every common name and every four input lists, no element of the
sequence returned by `getSANs` equals the common name. -/
theorem getSANs_excludes_commonName {IP URL : Type} (ipString : IP → GoString)
    (uriString : URL → GoString) (commonName : GoString) (dnsNames : List GoString)
    (ipAddresses : List IP) (emailAddresses : List GoString) (uris : List URL) :
    commonName ∉
      getSANs ipString uriString commonName dnsNames ipAddresses emailAddresses uris := by
  intro hs
  rw [getSANs_eq] at hs
  simp only [List.mem_append, List.mem_filter, decide_eq_true_eq] at hs
  rcases hs with ((h | h) | h) | h <;> exact h.2 rfl

/-- C4: `getSANs` returns exactly the concatenation, in the order DNS names, IP
addresses, email addresses, URIs, of the entries of each category (IPs and URIs
rendered to strings first) that differ from the common name, in input order
inside each category; an entry that occurs in two categories is kept twice. -/
theorem getSANs_is_ordered_concatenation {IP URL : Type} (ipString : IP → GoString)
    (uriString : URL → GoString) (commonName : GoString) (dnsNames : List GoString)
    (ipAddresses : List IP) (emailAddresses : List GoString) (uris : List URL) :
    getSANs ipString uriString commonName dnsNames ipAddresses emailAddresses uris =
        dnsNames.filter (fun s => decide (s ≠ commonName)) ++
        (ipAddresses.map ipString).filter (fun s => decide (s ≠ commonName)) ++
        emailAddresses.filter (fun s => decide (s ≠ commonName)) ++
        (uris.map uriString).filter (fun s => decide (s ≠ commonName)) ∧
      getSANs (fun ip : GoString => ip) (fun uri : GoString => uri) (lit "cn")
          [lit "b", lit "cn", lit "a"] [lit "a"] [lit "b", lit "a"] [lit "cn", lit "b"] =
        [lit "b", lit "a", lit "a", lit "b", lit "a", lit "b"] :=
  ⟨getSANs_eq ipString uriString commonName dnsNames ipAddresses emailAddresses uris, by decide⟩

/-! ## `newCertificateShort`: claim C2 -/

/-- C2: for every certificate `newCertificateShort` returns a summary whose
`Type` is `"TLS"` when the CA flag is false; when the CA flag is true it is
`"Root CA"` if and only if `CheckSignatureFrom` of the certificate on itself
returns no error, and `"Intermediate CA"` if and only if it returns one. No
other value is produced. -/
theorem newCertificateShort_type_classification {IP URL Time : Type} (L : Lib IP URL Time)
    (cert : Certificate IP URL Time) :
    ∃ c, newCertificateShort L cert = .ok c ∧
      (cert.IsCA = false → c.«Type» = lit "TLS") ∧
      (cert.IsCA = true →
        (c.«Type» = lit "Root CA" ↔ L.CheckSignatureFrom cert cert = none)) ∧
      (cert.IsCA = true →
        (c.«Type» = lit "Intermediate CA" ↔ L.CheckSignatureFrom cert cert ≠ none)) ∧
      (c.«Type» = lit "TLS" ∨ c.«Type» = lit "Root CA" ∨ c.«Type» = lit "Intermediate CA") := by
  obtain ⟨serial, prov, -, -, hc⟩ := newCertificateShort_returns L cert
  refine ⟨_, hc, ?_, ?_, ?_, ?_⟩
  · intro h
    simp [h]
  · intro h
    by_cases hs : L.CheckSignatureFrom cert cert = none
    · simp [h, hs]
    · have hne : lit "Intermediate CA" ≠ lit "Root CA" := by decide
      simp [h, hs, hne]
  · intro h
    by_cases hs : L.CheckSignatureFrom cert cert = none
    · have hne : lit "Root CA" ≠ lit "Intermediate CA" := by decide
      simp [h, hs, hne]
    · simp [h, hs]
  · by_cases h : cert.IsCA = true
    · by_cases hs : L.CheckSignatureFrom cert cert = none
      · simp [h, hs]
      · simp [h, hs]
    · simp [h]

/-- C2 at concrete inputs: a CA certificate that verifies against itself is a
`"Root CA"`. -/
theorem newCertificateShort_type_classification_witness :
    ∃ c, newCertificateShort sampleLib sampleRootCert = .ok c ∧ c.«Type» = lit "Root CA" := by
  obtain ⟨c, hc, -, h, -⟩ := newCertificateShort_type_classification sampleLib sampleRootCert
  exact ⟨c, hc, (h rfl).2 (by decide)⟩

/-! ## The two `String` methods: claims C5, C6, C7 -/

/-- C5: `String()` of a certificate summary is, in this order, the header line
`X.509v3 <Type> Certificate (<PublicKeyAlgorithm>) [Serial: <SerialNumber>]`,
the subject block, the line `  Issuer:      <Issuer>`, a provisioner line if and
only if `Provisioner` is present (`  Provisioner: <Name>` when its ID is empty,
`  Provisioner: <Name> [ID: <ID>]` otherwise), then `  Valid from:  <NotBefore>`
and `          to:  <NotAfter>` in the layout RFC3339; every line, the last
included, ends with a newline. -/
theorem certificateShort_String_layout {IP URL Time : Type} (L : Lib IP URL Time)
    (c : certificateShort Time) :
    c.String L =
      lit "X.509v3 " ++ c.«Type» ++ lit " Certificate (" ++ c.PublicKeyAlgorithm ++
        lit ") [Serial: " ++ c.SerialNumber ++ lit "]\n" ++
      subjectBlockSpec c.Subject c.SANs ++
      (lit "  Issuer:      " ++ c.Issuer ++ lit "\n") ++
      (match c.Provisioner with
        | none => []
        | some p =>
          if p.ID = [] then lit "  Provisioner: " ++ p.Name ++ lit "\n"
          else lit "  Provisioner: " ++ p.Name ++ lit " [ID: " ++ p.ID ++ lit "]\n") ++
      (lit "  Valid from:  " ++ L.Format c.NotBefore RFC3339 ++ lit "\n") ++
      (lit "          to:  " ++ L.Format c.NotAfter RFC3339 ++ lit "\n") :=
  certificateShort_String_eq L c

/-- C6: in both `String` methods the subject block, written right after the
header line, is the block of the specification for `[Subject] ++ SANs` (just
`SANs` when `Subject` is empty): the bare line `"  Subject: "` when that list is
empty, and otherwise the first entry after `"  Subject:     "` and each later
entry after 15 spaces, one entry a line in list order. -/
theorem subject_block_rendering {IP URL Time : Type} (L : Lib IP URL Time)
    (c : certificateShort Time) (r : certificateRequestShort) :
    (r.String =
        lit "X.509v3 Certificate Signing Request (" ++ r.PublicKeyAlgorithm ++ lit ")\n" ++
        subjectBlockSpec r.Subject r.SANs) ∧
      (∃ rest, c.String L =
        lit "X.509v3 " ++ c.«Type» ++ lit " Certificate (" ++ c.PublicKeyAlgorithm ++
          lit ") [Serial: " ++ c.SerialNumber ++ lit "]\n" ++
        subjectBlockSpec c.Subject c.SANs ++ lit "  Issuer:      " ++ rest) ∧
      subjectBlockSpec [] [] = lit "  Subject: \n" ∧
      (∀ subject sans, subject ≠ [] →
        subjectBlockSpec subject sans =
          lit "  Subject:     " ++ subject ++ lit "\n" ++
          sans.flatMap (fun entry => lit "               " ++ entry ++ lit "\n")) ∧
      (∀ first later,
        subjectBlockSpec [] (first :: later) =
          lit "  Subject:     " ++ first ++ lit "\n" ++
          later.flatMap (fun entry => lit "               " ++ entry ++ lit "\n")) := by
  have h15 : lit "               " = List.replicate 15 32 := by decide
  refine ⟨certificateRequestShort_String_eq r, ?_, by decide, ?_, ?_⟩
  · refine ⟨c.Issuer ++ lit "\n" ++
      (match c.Provisioner with
        | none => []
        | some p =>
          if p.ID = [] then lit "  Provisioner: " ++ p.Name ++ lit "\n"
          else lit "  Provisioner: " ++ p.Name ++ lit " [ID: " ++ p.ID ++ lit "]\n") ++
      (lit "  Valid from:  " ++ L.Format c.NotBefore RFC3339 ++ lit "\n") ++
      (lit "          to:  " ++ L.Format c.NotAfter RFC3339 ++ lit "\n"), ?_⟩
    rw [certificateShort_String_eq L c]
    simp only [List.append_assoc]
  · intro subject sans hne
    simp [subjectBlockSpec, subjectList, hne, h15]
  · intro first later
    simp [subjectBlockSpec, subjectList, h15]

/-- C6 at concrete inputs: a non-empty subject with two SANs gives three lines,
the subject first. -/
theorem subject_block_rendering_witness :
    subjectBlockSpec (lit "leaf.example") [lit "www.leaf.example", lit "10.0.0.1"] =
      lit "  Subject:     leaf.example\n               www.leaf.example\n               10.0.0.1\n" :=
  ((subject_block_rendering sampleLib sampleSummary sampleRequestSummary).2.2.2.1
    (lit "leaf.example") [lit "www.leaf.example", lit "10.0.0.1"] (by decide)).trans (by decide)

/-- C7: for a request summary `r` and a certificate summary `c` with the same
`Subject` and `SANs`, `r.String()` is the header
`X.509v3 Certificate Signing Request (<PublicKeyAlgorithm>)` and a newline,
followed by exactly the block `c.String()` has between its header line and its
Issuer line, and nothing else. -/
theorem request_String_shares_subject_block {IP URL Time : Type} (L : Lib IP URL Time)
    (c : certificateShort Time) (r : certificateRequestShort)
    (hSubject : r.Subject = c.Subject) (hSANs : r.SANs = c.SANs) :
    ∃ block : GoString,
      c.String L =
        lit "X.509v3 " ++ c.«Type» ++ lit " Certificate (" ++ c.PublicKeyAlgorithm ++
          lit ") [Serial: " ++ c.SerialNumber ++ lit "]\n" ++
        block ++
        (lit "  Issuer:      " ++ c.Issuer ++ lit "\n") ++
        (match c.Provisioner with
          | none => []
          | some p =>
            if p.ID = [] then lit "  Provisioner: " ++ p.Name ++ lit "\n"
            else lit "  Provisioner: " ++ p.Name ++ lit " [ID: " ++ p.ID ++ lit "]\n") ++
        (lit "  Valid from:  " ++ L.Format c.NotBefore RFC3339 ++ lit "\n") ++
        (lit "          to:  " ++ L.Format c.NotAfter RFC3339 ++ lit "\n") ∧
      r.String =
        lit "X.509v3 Certificate Signing Request (" ++ r.PublicKeyAlgorithm ++ lit ")\n" ++
        block := by
  refine ⟨subjectBlockSpec c.Subject c.SANs, certificateShort_String_eq L c, ?_⟩
  rw [certificateRequestShort_String_eq r, hSubject, hSANs]

/-- C7 at concrete inputs: the request text is its header and the three subject
lines of the certificate text. -/
theorem request_String_shares_subject_block_witness :
    ∃ block : GoString,
      sampleSummary.String sampleLib =
        lit "X.509v3 TLS Certificate (ECDSA P-256) [Serial: 1234...9012]\n" ++ block ++
        lit ("  Issuer:      Example Root\n  Provisioner: jo [ID: 0123...89ab]\n" ++
          "  Valid from:  2024-01-01T00:00:00Z\n          to:  2025-01-01T00:00:00Z\n") ∧
      sampleRequestSummary.String =
        lit "X.509v3 Certificate Signing Request (Ed25519 256)\n" ++ block := by
  obtain ⟨block, hc, hr⟩ :=
    request_String_shares_subject_block sampleLib sampleSummary sampleRequestSummary rfl rfl
  refine ⟨block, ?_, hr⟩
  rw [hc]
  simp [sampleSummary, sampleLib, lit, utf8Encode]

/-! ## `getProvisioner`: claims C8, C9, C10 -/

/-- C8: `getProvisioner` never fails, and it returns `nil` for every certificate
in which no extension carries the provisioner OID, and for every certificate
whose first extension with that OID has a value that `asn1.Unmarshal` rejects or
decodes leaving one or more bytes. -/
theorem getProvisioner_absent {IP URL Time : Type} (L : Lib IP URL Time)
    (cert : Certificate IP URL Time) :
    (∃ p, getProvisioner L cert = .ok p) ∧
      ((∀ ext ∈ cert.Extensions, ext.Id ≠ L.oidStepProvisioner) →
        getProvisioner L cert = .ok none) ∧
      (∀ pre ext post, cert.Extensions = pre ++ ext :: post →
        (∀ x ∈ pre, x.Id ≠ L.oidStepProvisioner) → ext.Id = L.oidStepProvisioner →
        ((L.Unmarshal ext.Value).err ≠ none ∨ (L.Unmarshal ext.Value).rest.length > 0) →
        getProvisioner L cert = .ok none) := by
  refine ⟨getProvisionerLoop_returns _ _ _, ?_, ?_⟩
  · intro h
    have hs := getProvisionerLoop_skip L.oidStepProvisioner L.Unmarshal cert.Extensions [] h
    rw [List.append_nil] at hs
    unfold getProvisioner
    rw [hs]
    rfl
  · intro pre ext post hexts hpre hext hbad
    unfold getProvisioner
    rw [hexts, getProvisionerLoop_skip _ _ pre _ hpre, getProvisionerLoop_hit _ _ ext post hext,
      if_pos hbad]

/-- C8 at concrete inputs: no provisioner without the OID, none for a value cut
short, none for a value with one byte too many. -/
theorem getProvisioner_absent_witness :
    getProvisioner sampleLib (certWithExtensions [otherExt]) = .ok none ∧
      getProvisioner sampleLib
        (certWithExtensions [otherExt, provisionerExt ([3] ++ lit "abc" ++ [2] ++ lit "j")]) =
        .ok none ∧
      getProvisioner sampleLib
        (certWithExtensions [otherExt, provisionerExt ([3] ++ lit "abc" ++ [2] ++ lit "jo" ++ [0])]) =
        .ok none :=
  ⟨(getProvisioner_absent sampleLib (certWithExtensions [otherExt])).2.1 (by decide),
    (getProvisioner_absent sampleLib _).2.2 [otherExt] _ [] rfl (by decide) rfl
      (Or.inl (by decide)),
    (getProvisioner_absent sampleLib _).2.2 [otherExt] _ [] rfl (by decide) rfl
      (Or.inr (by decide))⟩

/-- C9: the result of `getProvisioner` is decided by the first extension whose
identifier equals the provisioner OID: two certificates in which that extension
is the same get the same result, whatever extensions follow it (or precede it
with another OID); and when that extension is malformed the result is `nil`,
whatever follows. -/
theorem getProvisioner_first_match_decides {IP URL Time : Type} (L : Lib IP URL Time)
    (cert cert' : Certificate IP URL Time) (pre pre' post post' : List Extension)
    (ext : Extension)
    (hexts : cert.Extensions = pre ++ ext :: post)
    (hexts' : cert'.Extensions = pre' ++ ext :: post')
    (hpre : ∀ x ∈ pre, x.Id ≠ L.oidStepProvisioner)
    (hpre' : ∀ x ∈ pre', x.Id ≠ L.oidStepProvisioner)
    (hext : ext.Id = L.oidStepProvisioner) :
    getProvisioner L cert = getProvisioner L cert' ∧
      (((L.Unmarshal ext.Value).err ≠ none ∨ (L.Unmarshal ext.Value).rest.length > 0) →
        getProvisioner L cert = .ok none) := by
  have h : ∀ (c : Certificate IP URL Time) (p q : List Extension),
      c.Extensions = p ++ ext :: q → (∀ x ∈ p, x.Id ≠ L.oidStepProvisioner) →
      getProvisioner L c = getProvisionerLoop L.oidStepProvisioner L.Unmarshal [ext] := by
    intro c p q hc hp
    unfold getProvisioner
    rw [hc, getProvisionerLoop_skip _ _ p _ hp, getProvisionerLoop_hit _ _ ext q hext,
      getProvisionerLoop_hit _ _ ext [] hext]
  refine ⟨(h cert pre post hexts hpre).trans (h cert' pre' post' hexts' hpre').symm, ?_⟩
  intro hbad
  rw [h cert pre post hexts hpre, getProvisionerLoop_hit _ _ ext [] hext, if_pos hbad]

/-- C9 at concrete inputs: a malformed first provisioner extension gives `nil`
with and without a well-formed provisioner extension after it. -/
theorem getProvisioner_first_match_decides_witness :
    getProvisioner sampleLib
        (certWithExtensions [otherExt, provisionerExt ([3] ++ lit "abc"),
          provisionerExt ([3] ++ lit "abc" ++ [2] ++ lit "jo")]) =
      getProvisioner sampleLib (certWithExtensions [provisionerExt ([3] ++ lit "abc")]) ∧
    getProvisioner sampleLib
        (certWithExtensions [otherExt, provisionerExt ([3] ++ lit "abc"),
          provisionerExt ([3] ++ lit "abc" ++ [2] ++ lit "jo")]) = .ok none :=
  let h := getProvisioner_first_match_decides sampleLib
    (certWithExtensions [otherExt, provisionerExt ([3] ++ lit "abc"),
      provisionerExt ([3] ++ lit "abc" ++ [2] ++ lit "jo")])
    (certWithExtensions [provisionerExt ([3] ++ lit "abc")])
    [otherExt] [] [provisionerExt ([3] ++ lit "abc" ++ [2] ++ lit "jo")] []
    (provisionerExt ([3] ++ lit "abc")) rfl rfl (by decide) (by decide) rfl
  ⟨h.1, h.2 (Or.inl (by decide))⟩

/-- C10: when the first extension with the provisioner OID decodes without
error and with no byte left, `getProvisioner` returns a provisioner whose `ID`
is what `abbreviated` returns on the credential ID and whose `Name` is the
decoded name. -/
theorem getProvisioner_present {IP URL Time : Type} (L : Lib IP URL Time)
    (cert : Certificate IP URL Time) (pre post : List Extension) (ext : Extension)
    (hexts : cert.Extensions = pre ++ ext :: post)
    (hpre : ∀ x ∈ pre, x.Id ≠ L.oidStepProvisioner)
    (hext : ext.Id = L.oidStepProvisioner)
    (herr : (L.Unmarshal ext.Value).err = none)
    (hrest : (L.Unmarshal ext.Value).rest.length = 0) :
    ∃ id, abbreviated (L.Unmarshal ext.Value).val.CredentialID = .ok id ∧
      getProvisioner L cert =
        .ok (some { ID := id, Name := (L.Unmarshal ext.Value).val.Name }) := by
  refine ⟨_, abbreviated_eq _, ?_⟩
  unfold getProvisioner
  rw [hexts, getProvisionerLoop_skip _ _ pre _ hpre, getProvisionerLoop_hit _ _ ext post hext,
    if_neg]
  simp [herr, hrest]

/-- C10 at concrete inputs: a 12-byte credential ID is abbreviated, the name is
kept, and a later provisioner extension is not looked at. -/
theorem getProvisioner_present_witness :
    getProvisioner sampleLib
        (certWithExtensions [otherExt,
          provisionerExt ([12] ++ lit "0123456789ab" ++ [2] ++ lit "jo"),
          provisionerExt ([1] ++ lit "x" ++ [1] ++ lit "y")]) =
      .ok (some { ID := lit "0123...89ab", Name := lit "jo" }) := by
  obtain ⟨id, hid, h⟩ := getProvisioner_present sampleLib
    (certWithExtensions [otherExt,
      provisionerExt ([12] ++ lit "0123456789ab" ++ [2] ++ lit "jo"),
      provisionerExt ([1] ++ lit "x" ++ [1] ++ lit "y")])
    [otherExt] [provisionerExt ([1] ++ lit "x" ++ [1] ++ lit "y")]
    (provisionerExt ([12] ++ lit "0123456789ab" ++ [2] ++ lit "jo"))
    rfl (by decide) rfl (by decide) (by decide)
  have hid' : abbreviated (sampleLib.Unmarshal
      (provisionerExt ([12] ++ lit "0123456789ab" ++ [2] ++ lit "jo")).Value).val.CredentialID =
      .ok (lit "0123...89ab") := by decide
  have hname : (sampleLib.Unmarshal
      (provisionerExt ([12] ++ lit "0123456789ab" ++ [2] ++ lit "jo")).Value).val.Name =
      lit "jo" := by decide
  rw [hid'] at hid
  cases hid
  rw [h, hname]

/-! ## Lemmas on `bitLen` -/

/-- No halving is needed for 0. -/
theorem bitLenAux_zero (fuel : Nat) : bitLenAux fuel 0 = 0 := by
  cases fuel <;> simp [bitLenAux]

/-- With enough fuel, a number between `2 ^ k` and `2 ^ (k + 1)` has `k + 1`
bits. -/
theorem bitLenAux_of_bounds (k : Nat) :
    ∀ fuel n : Nat, n ≤ fuel → 2 ^ k ≤ n → n < 2 ^ (k + 1) → bitLenAux fuel n = k + 1 := by
  induction k with
  | zero =>
    intro fuel n hf h₁ h₂
    have hn : n = 1 := by simp at h₁ h₂; omega
    subst hn
    cases fuel with
    | zero => omega
    | succ f => simp [bitLenAux, bitLenAux_zero]
  | succ k ih =>
    intro fuel n hf h₁ h₂
    have hpos : 0 < 2 ^ k := Nat.two_pow_pos k
    have e₁ : 2 ^ (k + 1) = 2 * 2 ^ k := by rw [Nat.pow_succ]; omega
    have e₂ : 2 ^ (k + 1 + 1) = 2 * 2 ^ (k + 1) := by rw [Nat.pow_succ]; omega
    cases fuel with
    | zero => omega
    | succ f =>
      have hn : n ≠ 0 := by omega
      have hrec := ih f (n / 2) (by omega) (by omega) (by omega)
      simp [bitLenAux, hn, hrec]

/-- The value of `bitLen` from bounds: a number between `2 ^ k` and
`2 ^ (k + 1)` has `k + 1` bits. -/
theorem bitLen_of_bounds (k n : Nat) (h₁ : 2 ^ k ≤ n) (h₂ : n < 2 ^ (k + 1)) :
    bitLen n = k + 1 :=
  bitLenAux_of_bounds k n n (Nat.le_refl n) h₁ h₂

/-! ## Lemmas on `getPublicKeyAlgorithm` -/

/-- The format `"%s %s"`: the two operands with one space between. -/
theorem Sprintf_pair (a b : GoString) : Sprintf (lit "%s %s") [a, b] = a ++ lit " " ++ b := by
  simp [Sprintf, lit, utf8Encode]

/-- The value of `getPublicKeyAlgorithm`: the name of the algorithm, a space and
the parameter the type switch chooses. -/
theorem getPublicKeyAlgorithm_eq (algorithm : PublicKeyAlgorithm) (key : PublicKey) :
    getPublicKeyAlgorithm algorithm key =
      PublicKeyAlgorithm.String algorithm ++ lit " " ++
        (match key with
          | .ecdsa curveName => curveName
          | .rsa N => Itoa (rsaSize N * 8)
          | .dsa Q => Itoa (bitLen Q.natAbs)
          | .ed25519 pk => Itoa ((pk.length : Int) * 8)
          | .other => lit "unknown") := by
  unfold getPublicKeyAlgorithm
  rw [Sprintf_pair]

/-- The byte size times 8 of a modulus of `n` bits: `n` rounded up to a multiple
of 8. -/
theorem rsaSize_mul_eight (N : Int) (n : Nat) (hbits : bitLen N.natAbs = n) :
    rsaSize N * 8 = (((n + 7) / 8 * 8 : Nat) : Int) := by
  unfold rsaSize
  rw [hbits]
  omega

/-! ## `getPublicKeyAlgorithm`: claims C11, C12 -/

/-- C11, as the code has it: for an RSA public key whose modulus has `n` bits,
with the algorithm tag RSA, `getPublicKeyAlgorithm` returns `"RSA "` followed by
the decimal of the byte size times 8, that is `n` rounded up to a multiple of 8;
it is `"RSA n"` when `n` is a multiple of 8. -/
theorem getPublicKeyAlgorithm_rsa_byte_size (N : Int) (n : Nat)
    (hbits : bitLen N.natAbs = n) :
    getPublicKeyAlgorithm 1 (.rsa N) = lit "RSA " ++ Itoa (((n + 7) / 8 * 8 : Nat) : Int) ∧
      (n % 8 = 0 → getPublicKeyAlgorithm 1 (.rsa N) = lit "RSA " ++ Itoa (n : Int)) := by
  have hname : PublicKeyAlgorithm.String 1 ++ lit " " = lit "RSA " := by decide
  have h : getPublicKeyAlgorithm 1 (.rsa N) =
      lit "RSA " ++ Itoa (((n + 7) / 8 * 8 : Nat) : Int) := by
    rw [getPublicKeyAlgorithm_eq, hname]
    show lit "RSA " ++ Itoa (rsaSize N * 8) = _
    rw [rsaSize_mul_eight N n hbits]
  refine ⟨h, ?_⟩
  intro h8
  have e : (n + 7) / 8 * 8 = n := by omega
  rw [h, e]

/-- C11 at concrete inputs: a modulus of 8 bits reads `"RSA 8"`. -/
theorem getPublicKeyAlgorithm_rsa_byte_size_witness :
    getPublicKeyAlgorithm 1 (.rsa 255) = lit "RSA 8" :=
  ((getPublicKeyAlgorithm_rsa_byte_size 255 8 (by decide)).2 (by decide)).trans (by decide)

/-- C11 as stated fails: the modulus 256 has 9 bits and the result is
`"RSA 16"`, not `"RSA 9"`. -/
theorem getPublicKeyAlgorithm_rsa_nine_bits :
    bitLen (256 : Int).natAbs = 9 ∧
      getPublicKeyAlgorithm 1 (.rsa 256) = lit "RSA 16" ∧
      getPublicKeyAlgorithm 1 (.rsa 256) ≠ lit "RSA " ++ Itoa 9 := by
  decide

/-- C12: for every algorithm tag and key, `getPublicKeyAlgorithm` returns the
name of the tag, one space, and the parameter chosen by the kind of key alone:
the curve name for an elliptic-curve key, the byte size times 8 for an RSA key,
the bit length of `Q` for a DSA key, the byte length times 8 for an Ed25519 key,
and `"unknown"` for any other key. The tags 1 to 4 are named `RSA`, `DSA`,
`ECDSA`, `Ed25519`. -/
theorem getPublicKeyAlgorithm_name_and_parameter (algorithm : PublicKeyAlgorithm)
    (key : PublicKey) :
    getPublicKeyAlgorithm algorithm key =
        PublicKeyAlgorithm.String algorithm ++ lit " " ++
          (match key with
            | .ecdsa curveName => curveName
            | .rsa N => Itoa (rsaSize N * 8)
            | .dsa Q => Itoa (bitLen Q.natAbs)
            | .ed25519 pk => Itoa ((pk.length : Int) * 8)
            | .other => lit "unknown") ∧
      [PublicKeyAlgorithm.String 1, PublicKeyAlgorithm.String 2, PublicKeyAlgorithm.String 3,
          PublicKeyAlgorithm.String 4] =
        [lit "RSA", lit "DSA", lit "ECDSA", lit "Ed25519"] ∧
      [getPublicKeyAlgorithm 3 (.ecdsa (lit "P-256")), getPublicKeyAlgorithm 2 (.dsa 255),
          getPublicKeyAlgorithm 4 (.ed25519 (List.replicate 32 0)),
          getPublicKeyAlgorithm 1 .other, getPublicKeyAlgorithm 0 .other] =
        [lit "ECDSA P-256", lit "DSA 8", lit "Ed25519 256", lit "RSA unknown",
          lit "0 unknown"] :=
  ⟨getPublicKeyAlgorithm_eq algorithm key, by decide, by decide⟩

/-! ## Lemmas for the scenarios -/

/-- Without an extension carrying the provisioner OID, `getProvisioner` returns
`nil`. -/
theorem getProvisioner_of_no_oid {IP URL Time : Type} (L : Lib IP URL Time)
    (cert : Certificate IP URL Time)
    (h : ∀ ext ∈ cert.Extensions, ext.Id ≠ L.oidStepProvisioner) :
    getProvisioner L cert = .ok none := by
  have hs := getProvisionerLoop_skip L.oidStepProvisioner L.Unmarshal cert.Extensions [] h
  rw [List.append_nil] at hs
  unfold getProvisioner
  rw [hs]
  rfl

/-- A category whose rendered entries all equal the common name adds nothing to
the SANs. -/
theorem filter_ne_eq_nil (cn : GoString) (xs : List GoString) (h : ∀ s ∈ xs, s = cn) :
    xs.filter (fun s => decide (s ≠ cn)) = [] := by
  rw [List.filter_eq_nil_iff]
  intro s hs
  simp [h s hs]

/-- The number `2 ^ k + 1` has `k + 1` bits, for `k` positive. -/
theorem bitLen_two_pow_add_one (k : Nat) (hk : 0 < k) : bitLen (2 ^ k + 1) = k + 1 := by
  apply bitLen_of_bounds k
  · exact Nat.le_add_right _ _
  · have hpos : 1 < 2 ^ k := Nat.one_lt_two_pow (by omega)
    rw [Nat.pow_succ]
    omega

/-! ## The two scenarios: claims C13, C14 -/

/-- C13: for a CSR with an Ed25519 public key of 32 bytes, an empty subject
common name and the single DNS name `"host.example"` (no IPs, emails or URIs),
`newCertificateRequestShort(...).String()` is exactly
`"X.509v3 Certificate Signing Request (Ed25519 256)\n  Subject:     host.example\n"`. -/
theorem newCertificateRequestShort_ed25519_scenario {IP URL Time : Type}
    (L : Lib IP URL Time) (cr : CertificateRequest IP URL) (pk : List UInt8)
    (halg : cr.PublicKeyAlgorithm = 4) (hkey : cr.PublicKey = .ed25519 pk)
    (hlen : pk.length = 32) (hcn : cr.SubjectCommonName = lit "")
    (hdns : cr.DNSNames = [lit "host.example"]) (hips : cr.IPAddresses = [])
    (hemails : cr.EmailAddresses = []) (huris : cr.URIs = []) :
    (newCertificateRequestShort L cr).String =
      lit "X.509v3 Certificate Signing Request (Ed25519 256)\n  Subject:     host.example\n" := by
  have hpka : getPublicKeyAlgorithm cr.PublicKeyAlgorithm cr.PublicKey = lit "Ed25519 256" := by
    rw [halg, hkey, getPublicKeyAlgorithm_eq]
    show PublicKeyAlgorithm.String 4 ++ lit " " ++ Itoa ((pk.length : Int) * 8) = _
    rw [hlen]
    decide
  have hsans : getSANs L.ipString L.uriString cr.SubjectCommonName cr.DNSNames cr.IPAddresses
      cr.EmailAddresses cr.URIs = [lit "host.example"] := by
    rw [getSANs_eq, hcn, hdns, hips, hemails, huris]
    simp only [List.map_nil, List.filter_nil, List.append_nil]
    decide
  rw [certificateRequestShort_String_eq]
  show lit "X.509v3 Certificate Signing Request (" ++
      getPublicKeyAlgorithm cr.PublicKeyAlgorithm cr.PublicKey ++ lit ")\n" ++
      subjectBlockSpec cr.SubjectCommonName
        (getSANs L.ipString L.uriString cr.SubjectCommonName cr.DNSNames cr.IPAddresses
          cr.EmailAddresses cr.URIs) = _
  rw [hpka, hsans, hcn]
  decide

/-- C13 at a concrete request. -/
theorem newCertificateRequestShort_ed25519_scenario_witness :
    (newCertificateRequestShort sampleLib sampleRequest).String =
      lit "X.509v3 Certificate Signing Request (Ed25519 256)\n  Subject:     host.example\n" :=
  newCertificateRequestShort_ed25519_scenario sampleLib sampleRequest (List.replicate 32 7)
    rfl rfl (by decide) rfl rfl rfl rfl rfl

/-- C14: for a CA-flagged certificate whose self-signature verifies, with an RSA
key of 2048 bits, the serial number 123456789012, the subject common name
`"Example Root"`, no SAN other than the subject and no provisioner extension,
`newCertificateShort(...).String()` starts with the line
`X.509v3 Root CA Certificate (RSA 2048) [Serial: 1234...9012]`, has the single
subject line `  Subject:     Example Root`, and goes from the Issuer line
straight to the validity lines, with no provisioner line. -/
theorem newCertificateShort_root_scenario {IP URL Time : Type} (L : Lib IP URL Time)
    (cert : Certificate IP URL Time) (N : Int)
    (hca : cert.IsCA = true) (hsig : L.CheckSignatureFrom cert cert = none)
    (halg : cert.PublicKeyAlgorithm = 1) (hkey : cert.PublicKey = .rsa N)
    (hbits : bitLen N.natAbs = 2048) (hserial : cert.SerialNumber = 123456789012)
    (hcn : cert.SubjectCommonName = lit "Example Root")
    (hdns : ∀ s ∈ cert.DNSNames, s = cert.SubjectCommonName)
    (hips : ∀ ip ∈ cert.IPAddresses, L.ipString ip = cert.SubjectCommonName)
    (hemails : ∀ s ∈ cert.EmailAddresses, s = cert.SubjectCommonName)
    (huris : ∀ uri ∈ cert.URIs, L.uriString uri = cert.SubjectCommonName)
    (hexts : ∀ ext ∈ cert.Extensions, ext.Id ≠ L.oidStepProvisioner) :
    ∃ c, newCertificateShort L cert = .ok c ∧
      c.String L =
        lit "X.509v3 Root CA Certificate (RSA 2048) [Serial: 1234...9012]\n" ++
        lit "  Subject:     Example Root\n" ++
        (lit "  Issuer:      " ++ cert.IssuerCommonName ++ lit "\n") ++
        (lit "  Valid from:  " ++ L.Format cert.NotBefore RFC3339 ++ lit "\n") ++
        (lit "          to:  " ++ L.Format cert.NotAfter RFC3339 ++ lit "\n") := by
  obtain ⟨serial, prov, hser, hprov, hc⟩ := newCertificateShort_returns L cert
  have hser' : abbreviated (Itoa cert.SerialNumber) = .ok (lit "1234...9012") := by
    rw [hserial]
    decide
  have hprov' : getProvisioner L cert = .ok none := getProvisioner_of_no_oid L cert hexts
  have e₁ : serial = lit "1234...9012" := by
    rw [hser'] at hser
    cases hser
    rfl
  have e₂ : prov = none := by
    rw [hprov'] at hprov
    cases hprov
    rfl
  have hpka : getPublicKeyAlgorithm cert.PublicKeyAlgorithm cert.PublicKey = lit "RSA 2048" := by
    rw [halg, hkey, getPublicKeyAlgorithm_eq]
    show PublicKeyAlgorithm.String 1 ++ lit " " ++ Itoa (rsaSize N * 8) = _
    rw [rsaSize_mul_eight N 2048 hbits]
    decide
  have hsans : getSANs L.ipString L.uriString cert.SubjectCommonName cert.DNSNames
      cert.IPAddresses cert.EmailAddresses cert.URIs = [] := by
    rw [getSANs_eq, filter_ne_eq_nil _ _ hdns, filter_ne_eq_nil _ _ hemails,
      filter_ne_eq_nil _ (cert.IPAddresses.map L.ipString)
        (by intro s hs; obtain ⟨ip, hip, rfl⟩ := List.mem_map.1 hs; exact hips ip hip),
      filter_ne_eq_nil _ (cert.URIs.map L.uriString)
        (by intro s hs; obtain ⟨uri, huri, rfl⟩ := List.mem_map.1 hs; exact huris uri huri)]
    rfl
  have hblock : subjectBlockSpec (lit "Example Root") [] = lit "  Subject:     Example Root\n" := by
    decide
  have hheader : lit "X.509v3 " ++ lit "Root CA" ++ lit " Certificate (" ++ lit "RSA 2048" ++
      lit ") [Serial: " ++ lit "1234...9012" ++ lit "]\n" =
      lit "X.509v3 Root CA Certificate (RSA 2048) [Serial: 1234...9012]\n" := by
    decide
  refine ⟨_, hc, ?_⟩
  rw [certificateShort_String_eq]
  simp only [hca, hsig, if_true, hpka, hsans, e₁, e₂]
  simp only [hcn, hblock, hheader, List.append_nil]

set_option maxRecDepth 20000 in
/-- C14 at a concrete certificate: a modulus of 2048 bits, the subject repeated
among the DNS names, one extension with another OID. -/
theorem newCertificateShort_root_scenario_witness :
    ∃ c, newCertificateShort sampleLib sampleRSARootCert = .ok c ∧
      c.String sampleLib =
        lit ("X.509v3 Root CA Certificate (RSA 2048) [Serial: 1234...9012]\n" ++
          "  Subject:     Example Root\n" ++
          "  Issuer:      Example Root\n" ++
          "  Valid from:  2024-01-01T00:00:00Z\n" ++
          "          to:  2025-01-01T00:00:00Z\n") := by
  have hbits : bitLen (Int.natAbs (sampleRSAModulus : Int)) = 2048 := by
    rw [Int.natAbs_ofNat]
    exact bitLen_two_pow_add_one 2047 (by decide)
  obtain ⟨c, hc, hs⟩ := newCertificateShort_root_scenario sampleLib sampleRSARootCert
    (sampleRSAModulus : Int) rfl rfl rfl rfl hbits rfl rfl
    (by decide) (by decide) (by decide) (by decide) (by decide)
  refine ⟨c, hc, ?_⟩
  rw [hs]
  decide

/-! ## More on `abbreviated`: claims C15, C17, C18 -/

/-- The length of what `abbreviated` returns: the length of the argument up to 8
bytes, 11 bytes beyond. -/
theorem abbreviated_length_eq (s : GoString) :
    ∃ r, abbreviated s = .ok r ∧ r.length = if s.length ≤ 8 then s.length else 11 := by
  refine ⟨_, abbreviated_eq s, ?_⟩
  have h3 : (lit "...").length = 3 := by decide
  by_cases h : s.length ≤ 8
  · simp [h]
  · simp only [h, if_false, List.length_append, List.length_take, List.length_drop, h3]
    omega

/-- C15, as the code has it: `abbreviated(s)` is `s` itself up to 8 bytes and
has 11 bytes beyond; so it is not longer than `s` when `len(s) <= 8` or
`len(s) >= 11`, and it is strictly shorter than `s` when `len(s) > 11`. -/
theorem abbreviated_length_bounds (s : GoString) :
    ∃ r, abbreviated s = .ok r ∧
      (s.length ≤ 8 → r = s) ∧
      (8 < s.length → r.length = 11) ∧
      (r.length = if s.length ≤ 8 then s.length else 11) ∧
      (s.length ≤ 8 ∨ 11 ≤ s.length → r.length ≤ s.length) ∧
      (11 < s.length → r.length < s.length) := by
  obtain ⟨r, hr, hlen⟩ := abbreviated_length_eq s
  refine ⟨r, hr, ?_, ?_, hlen, ?_, ?_⟩
  · intro h
    rw [abbreviated_eq, if_pos h] at hr
    exact (Except.ok.inj hr).symm
  · intro h
    rw [hlen, if_neg (by omega)]
  · intro h
    rw [hlen]
    split <;> omega
  · intro h
    rw [hlen]
    split <;> omega

/-- C15 at concrete inputs: a string of 12 bytes is abbreviated to fewer, a
string of 8 bytes is returned as it is. -/
theorem abbreviated_length_bounds_witness :
    (∃ r, abbreviated (lit "123456789012") = .ok r ∧ r.length < 12) ∧
      (∃ r, abbreviated (lit "12345678") = .ok r ∧ r = lit "12345678") := by
  obtain ⟨r, hr, -, -, -, -, h⟩ := abbreviated_length_bounds (lit "123456789012")
  obtain ⟨r', hr', h', -⟩ := abbreviated_length_bounds (lit "12345678")
  exact ⟨⟨r, hr, h (by decide)⟩, ⟨r', hr', h' (by decide)⟩⟩

/-- C15 as stated fails: the 9 bytes `"123456789"` become the 11 bytes
`"1234...6789"`, a longer string. -/
theorem abbreviated_nine_bytes_grows :
    abbreviated (lit "123456789") = .ok (lit "1234...6789") ∧
      (lit "123456789").length = 9 ∧ (lit "1234...6789").length = 11 := by
  decide

/-- C17: `abbreviated` always returns. Up to 8 bytes it returns its argument
without slicing, also where `s[:4]` alone would be out of range; beyond 8 bytes
the bounds of both slice expressions are in range (`0 <= 4 <= len(s)-4 <=
len(s)`), both succeed, and the prefix and the suffix they keep are disjoint
parts of `s`. -/
theorem abbreviated_total (s : GoString) :
    (∃ r, abbreviated s = .ok r) ∧
      (s.length ≤ 8 → abbreviated s = .ok s) ∧
      (s.length < 4 → sliceStr s 0 4 = .error .sliceBounds) ∧
      (8 < s.length →
        (0 : Int) ≤ 4 ∧ (4 : Int) ≤ (s.length : Int) - 4 ∧
        (s.length : Int) - 4 ≤ (s.length : Int) ∧
        sliceStr s 0 4 = .ok (s.take 4) ∧
        sliceStr s ((s.length : Int) - 4) s.length = .ok (s.drop (s.length - 4)) ∧
        s = s.take 4 ++ (s.drop 4).take (s.length - 8) ++ s.drop (s.length - 4)) := by
  refine ⟨⟨_, abbreviated_eq s⟩, ?_, ?_, ?_⟩
  · intro h
    rw [abbreviated_eq, if_pos h]
  · intro h
    have hc : ¬ ((0 : Int) ≤ 0 ∧ (0 : Int) ≤ 4 ∧ (4 : Int) ≤ (s.length : Int)) := by omega
    simp only [sliceStr, hc, if_false]
  · intro h
    have e₁ := sliceStr_of_bounds s 0 4 (by omega) (by omega)
    have e₂ := sliceStr_of_bounds s (s.length - 4) s.length (by omega) (by omega)
    have hc : ((s.length - 4 : Nat) : Int) = (s.length : Int) - 4 := by omega
    have hlen : s.length - (s.length - 4) = 4 := by omega
    have ht : (s.drop (s.length - 4)).take 4 = s.drop (s.length - 4) := by
      apply List.take_of_length_le
      simp
      omega
    rw [hc, hlen, ht] at e₂
    refine ⟨by omega, by omega, by omega, by simpa using e₁, e₂, ?_⟩
    have hd : s.drop (s.length - 4) = (s.drop 4).drop (s.length - 8) := by
      rw [List.drop_drop]
      congr 1
      omega
    rw [hd, List.append_assoc, List.take_append_drop, List.take_append_drop]

/-- C17 at concrete inputs: 9 bytes are sliced in range, 3 bytes are returned
as they are though `s[:4]` would be out of range. -/
theorem abbreviated_total_witness :
    sliceStr (lit "123456789") 0 4 = .ok (lit "1234") ∧
      sliceStr (lit "123456789") 5 9 = .ok (lit "6789") ∧
      abbreviated (lit "abc") = .ok (lit "abc") ∧
      sliceStr (lit "abc") 0 4 = .error .sliceBounds :=
  ⟨((abbreviated_total (lit "123456789")).2.2.2 (by decide)).2.2.2.1.trans (by decide),
    ((abbreviated_total (lit "123456789")).2.2.2 (by decide)).2.2.2.2.1.trans (by decide),
    (abbreviated_total (lit "abc")).2.1 (by decide),
    (abbreviated_total (lit "abc")).2.2.1 (by decide)⟩

/-- C18: `abbreviated` is idempotent: what it returns on `s` it returns again on
that result; `"abcd...wxyz"` maps to itself. -/
theorem abbreviated_idempotent (s : GoString) :
    (∃ r, abbreviated s = .ok r ∧ abbreviated r = .ok r) ∧
      (abbreviated s >>= abbreviated) = abbreviated s ∧
      abbreviated (lit "abcd...wxyz") = .ok (lit "abcd...wxyz") := by
  have key : ∃ r, abbreviated s = .ok r ∧ abbreviated r = .ok r := by
    by_cases h : s.length ≤ 8
    · refine ⟨s, ?_, ?_⟩ <;> rw [abbreviated_eq, if_pos h]
    · have h3 : (lit "...").length = 3 := by decide
      have hh : (s.take 4).length = 4 := by
        rw [List.length_take]
        omega
      have ht : (s.drop (s.length - 4)).length = 4 := by
        rw [List.length_drop]
        omega
      have h7 : (s.take 4 ++ lit "...").length = 7 := by
        rw [List.length_append, hh, h3]
      have h11 : (s.take 4 ++ lit "..." ++ s.drop (s.length - 4)).length = 11 := by
        rw [List.length_append, h7, ht]
      refine ⟨s.take 4 ++ lit "..." ++ s.drop (s.length - 4), ?_, ?_⟩
      · rw [abbreviated_eq, if_neg h]
      · rw [abbreviated_eq, if_neg (by omega), h11]
        have e₁ : (s.take 4 ++ lit "..." ++ s.drop (s.length - 4)).take 4 = s.take 4 := by
          rw [List.append_assoc]
          exact List.take_left' hh
        have e₂ : (s.take 4 ++ lit "..." ++ s.drop (s.length - 4)).drop (11 - 4) =
            s.drop (s.length - 4) := List.drop_left' h7
        rw [e₁, e₂]
  obtain ⟨r, hr, hrr⟩ := key
  refine ⟨⟨r, hr, hrr⟩, ?_, by decide⟩
  rw [hr]
  exact hrr

/-! ## More on `getSANs` and the subject block: claims C16, C19 -/

/-- The block of a non-empty subject: the subject on the labelled line, each SAN
on a line after 15 spaces. -/
theorem subjectBlockSpec_of_subject (subject : GoString) (sans : List GoString)
    (h : subject ≠ []) :
    subjectBlockSpec subject sans =
      lit "  Subject:     " ++ subject ++ lit "\n" ++
      sans.flatMap (fun entry => lit "               " ++ entry ++ lit "\n") := by
  have h15 : lit "               " = List.replicate 15 32 := by decide
  simp [subjectBlockSpec, subjectList, h, h15]

/-- The text of `certificateShort.String` up to the label of the Issuer line:
the header line, the subject block, the label. -/
theorem certificateShort_String_issuer {IP URL Time : Type} (L : Lib IP URL Time)
    (c : certificateShort Time) :
    ∃ rest, c.String L =
      lit "X.509v3 " ++ c.«Type» ++ lit " Certificate (" ++ c.PublicKeyAlgorithm ++
        lit ") [Serial: " ++ c.SerialNumber ++ lit "]\n" ++
      subjectBlockSpec c.Subject c.SANs ++ lit "  Issuer:      " ++ rest := by
  refine ⟨c.Issuer ++ lit "\n" ++
    (match c.Provisioner with
      | none => []
      | some p =>
        if p.ID = [] then lit "  Provisioner: " ++ p.Name ++ lit "\n"
        else lit "  Provisioner: " ++ p.Name ++ lit " [ID: " ++ p.ID ++ lit "]\n") ++
    (lit "  Valid from:  " ++ L.Format c.NotBefore RFC3339 ++ lit "\n") ++
    (lit "          to:  " ++ L.Format c.NotAfter RFC3339 ++ lit "\n"), ?_⟩
  rw [certificateShort_String_eq L c]
  simp only [List.append_assoc]

/-- C16, as the code has it: `getSANs` removes the names equal to the common
name and nothing else. With only DNS names, the result is the DNS names without
those equal to the common name: the common name does not occur, every other
string occurs as often as among the DNS names, and the result is free of
duplicates when the DNS names are. -/
theorem getSANs_dns_only {IP URL : Type} (ipString : IP → GoString)
    (uriString : URL → GoString) (commonName : GoString) (dnsNames : List GoString) :
    getSANs ipString uriString commonName dnsNames [] [] [] =
        dnsNames.filter (fun s => decide (s ≠ commonName)) ∧
      (getSANs ipString uriString commonName dnsNames [] [] []).count commonName = 0 ∧
      (∀ s, s ≠ commonName →
        (getSANs ipString uriString commonName dnsNames [] [] []).count s = dnsNames.count s) ∧
      (dnsNames.Nodup → (getSANs ipString uriString commonName dnsNames [] [] []).Nodup) := by
  have h : getSANs ipString uriString commonName dnsNames [] [] [] =
      dnsNames.filter (fun s => decide (s ≠ commonName)) := by
    rw [getSANs_eq]
    simp
  rw [h]
  refine ⟨rfl, ?_, ?_, ?_⟩
  · rw [List.count_eq_zero]
    intro hmem
    have := (List.mem_filter.1 hmem).2
    simp at this
  · intro s hs
    exact List.count_filter (by simpa using hs)
  · intro hnd
    exact hnd.filter _

/-- C16 at a concrete input: DNS names without duplicates give SANs without
duplicates. -/
theorem getSANs_dns_only_witness :
    (getSANs (fun ip : GoString => ip) (fun uri : GoString => uri) (lit "cn")
      [lit "a", lit "cn", lit "b"] [] [] []).Nodup :=
  (getSANs_dns_only (fun ip : GoString => ip) (fun uri : GoString => uri) (lit "cn")
    [lit "a", lit "cn", lit "b"]).2.2.2 (by decide)

/-- C16 as stated fails: the DNS name `"a"` given twice is returned twice. -/
theorem getSANs_keeps_duplicates :
    getSANs (fun ip : GoString => ip) (fun uri : GoString => uri) (lit "cn")
        [lit "a", lit "a"] [] [] [] = [lit "a", lit "a"] ∧
      ¬ (getSANs (fun ip : GoString => ip) (fun uri : GoString => uri) (lit "cn")
        [lit "a", lit "a"] [] [] []).Nodup := by
  decide

/-- C19: for a certificate and for a CSR with a non-empty subject common name,
the text of the constructor followed by `String()` has the common name on the
line `  Subject:     <CN>` right after the header line, followed by one line of
15 spaces and the entry for each SAN of the summary, and the common name is not
among these SANs: it is listed once, also when it occurs among the DNS names,
IP addresses, email addresses or URIs. -/
theorem subject_listed_once {IP URL Time : Type} (L : Lib IP URL Time)
    (cert : Certificate IP URL Time) (cr : CertificateRequest IP URL)
    (hcert : cert.SubjectCommonName ≠ []) (hcr : cr.SubjectCommonName ≠ []) :
    (∃ c rest, newCertificateShort L cert = .ok c ∧
      c.SANs = getSANs L.ipString L.uriString cert.SubjectCommonName cert.DNSNames
        cert.IPAddresses cert.EmailAddresses cert.URIs ∧
      cert.SubjectCommonName ∉ c.SANs ∧
      (cert.SubjectCommonName :: c.SANs).count cert.SubjectCommonName = 1 ∧
      c.String L =
        lit "X.509v3 " ++ c.«Type» ++ lit " Certificate (" ++ c.PublicKeyAlgorithm ++
          lit ") [Serial: " ++ c.SerialNumber ++ lit "]\n" ++
        (lit "  Subject:     " ++ cert.SubjectCommonName ++ lit "\n") ++
        c.SANs.flatMap (fun entry => lit "               " ++ entry ++ lit "\n") ++
        lit "  Issuer:      " ++ rest) ∧
    ((newCertificateRequestShort L cr).SANs =
        getSANs L.ipString L.uriString cr.SubjectCommonName cr.DNSNames
          cr.IPAddresses cr.EmailAddresses cr.URIs ∧
      cr.SubjectCommonName ∉ (newCertificateRequestShort L cr).SANs ∧
      (cr.SubjectCommonName :: (newCertificateRequestShort L cr).SANs).count
        cr.SubjectCommonName = 1 ∧
      (newCertificateRequestShort L cr).String =
        lit "X.509v3 Certificate Signing Request (" ++
          (newCertificateRequestShort L cr).PublicKeyAlgorithm ++ lit ")\n" ++
        (lit "  Subject:     " ++ cr.SubjectCommonName ++ lit "\n") ++
        (newCertificateRequestShort L cr).SANs.flatMap
          (fun entry => lit "               " ++ entry ++ lit "\n")) := by
  have hnot : ∀ (cn : GoString) (dns : List GoString) (ips : List IP) (emails : List GoString)
      (uris : List URL), cn ∉ getSANs L.ipString L.uriString cn dns ips emails uris := by
    intro cn dns ips emails uris hs
    rw [getSANs_eq] at hs
    simp only [List.mem_append, List.mem_filter, decide_eq_true_eq] at hs
    rcases hs with ((h | h) | h) | h <;> exact h.2 rfl
  have hcount : ∀ (cn : GoString) (sans : List GoString), cn ∉ sans →
      (cn :: sans).count cn = 1 := by
    intro cn sans h
    rw [List.count_cons_self, List.count_eq_zero.2 h]
  constructor
  · obtain ⟨serial, prov, -, -, hc⟩ := newCertificateShort_returns L cert
    obtain ⟨rest, hrest⟩ := certificateShort_String_issuer L
      { «Type» :=
          if cert.IsCA then
            if L.CheckSignatureFrom cert cert = none then lit "Root CA"
            else lit "Intermediate CA"
          else lit "TLS"
        PublicKeyAlgorithm := getPublicKeyAlgorithm cert.PublicKeyAlgorithm cert.PublicKey
        SerialNumber := serial
        Subject := cert.SubjectCommonName
        Issuer := cert.IssuerCommonName
        SANs := getSANs L.ipString L.uriString cert.SubjectCommonName cert.DNSNames
          cert.IPAddresses cert.EmailAddresses cert.URIs
        Provisioner := prov
        NotBefore := cert.NotBefore
        NotAfter := cert.NotAfter }
    refine ⟨_, rest, hc, rfl, hnot _ _ _ _ _, hcount _ _ (hnot _ _ _ _ _), ?_⟩
    rw [hrest, subjectBlockSpec_of_subject _ _ hcert]
    simp only [List.append_assoc]
  · refine ⟨rfl, hnot _ _ _ _ _, hcount _ _ (hnot _ _ _ _ _), ?_⟩
    rw [certificateRequestShort_String_eq]
    show _ ++ subjectBlockSpec cr.SubjectCommonName _ = _
    rw [subjectBlockSpec_of_subject _ _ hcr]
    simp only [List.append_assoc]

set_option maxRecDepth 20000 in
/-- C19 at a concrete request whose common name is also a DNS name, an email
address and a URI: it is printed once. -/
theorem subject_listed_once_witness :
    (newCertificateRequestShort sampleLib sampleRequestWithSubject).String =
      lit ("X.509v3 Certificate Signing Request (Ed25519 256)\n" ++
        "  Subject:     leaf.example\n" ++
        "               www.leaf.example\n" ++
        "               10.0.0.1\n") :=
  (subject_listed_once sampleLib sampleCert sampleRequestWithSubject
    (by decide) (by decide)).2.2.2.2.trans (by decide)

end Certinfo
